import Mathlib

/-!
Verification development for the MQPackage version-resolution core.

The definitions below are shallow embeddings of the Rust sources:
  * `src/mqpkg/src/resolver/semver.rs` (Version, Candidate, Requirement
    translation: `convert_normal`, `convert_prerelease`, `bump_pre`),
  * `src/mqpkg/src/resolver/pubgrub.rs` (`VersionSet` over a pair of
    ranges),
  * `src/mqpkg/src/repository.rs` (`Repository::candidates`),
  * `src/mqpkg/src/resolver/mod.rs` and
    `src/mqpkg/src/resolver/types/name.rs` (the two coexisting `Name`
    prototypes and the post-processing in `Solver::resolve`),
  * `src/mqpkg/src/pkgdb.rs` (`Database` state store).

Rust `u64` components are modelled as `Nat`; the arithmetic performed by
the code (`+ 1` on version components) cannot overflow in the model, which
matches the idealised reading the spec takes of version numbers.

The `Range` primitive of the pubgrub crate is not among the sources of
this repository; it is modelled from the spec (section 4.1) as a finite union of
half-open intervals with the set semantics given there.
-/

open Batteries

/-- Pre-release identifier, from the dot-separated pre-release
components of the semver crate: numeric identifiers compare numerically and are
lower than alphanumeric identifiers, which compare in ASCII order. -/
inductive Ident where
  | num (n : Nat)
  | str (s : String)
deriving DecidableEq

/-- Comparison of two pre-release identifiers (semver 2.0 rules as
implemented by the semver crate). -/
def Ident.cmp : Ident → Ident → Ordering
  | .num a, .num b => compare a b
  | .num _, .str _ => .lt
  | .str _, .num _ => .gt
  | .str a, .str b => compare a b

/-- Lexicographic comparison of identifier lists: a strict prefix is
smaller, otherwise compare pointwise. -/
def listCmp (c : α → α → Ordering) : List α → List α → Ordering
  | [], [] => .eq
  | [], _ :: _ => .lt
  | _ :: _, [] => .gt
  | a :: as, b :: bs => (c a b).then (listCmp c as bs)

/-- Pre-release tag: the list of dot-separated identifiers; the empty list
is the absent tag (a release), as in the `Prerelease` type of the semver crate. -/
abbrev Prerelease := List Ident

/-- Comparison of pre-release tags, from the semver crate: a release
(empty tag) compares greater than any pre-release; two nonempty tags
compare lexicographically. -/
def Prerelease.cmp : Prerelease → Prerelease → Ordering
  | [], [] => .eq
  | [], _ :: _ => .gt
  | _ :: _, [] => .lt
  | a :: as, b :: bs => listCmp Ident.cmp (a :: as) (b :: bs)

/-- SemVer 2.0 version triple with optional pre-release tag (the `Version` of
the semver crate; build metadata never occurs in this code path and is
omitted). -/
structure SemVer where
  major : Nat
  minor : Nat
  patch : Nat
  pre : Prerelease
deriving DecidableEq

/-- SemVer precedence: compare major, minor, patch, then the pre-release
tag (semver crate `Ord for Version`). -/
def SemVer.cmp (a b : SemVer) : Ordering :=
  (compare a.major b.major).then ((compare a.minor b.minor).then
    ((compare a.patch b.patch).then (Prerelease.cmp a.pre b.pre)))

/-- The `u64::MAX` marker source id used by `Version::candidate` in
`resolver/semver.rs`. -/
def u64MAX : Nat := 2 ^ 64 - 1

/-- A resolver version: a SemVer version plus its source of origin
(`resolver/semver.rs`, `struct Version`). -/
structure Version where
  version : SemVer
  source_id : Nat
  source_discriminator : Nat
deriving DecidableEq

/-- Comparison of the `(source_id, source_discriminator)` pairs (derived
tuple ordering in Rust). -/
def pairCmp (p q : Nat × Nat) : Ordering :=
  (compare p.1 q.1).then (compare p.2 q.2)

/-- Source key of a `Version`: the pair used for the tiebreak. -/
def Version.srcKey (v : Version) : Nat × Nat :=
  (v.source_id, v.source_discriminator)

/-- Total order on `Version` (`Ord for Version` in `resolver/semver.rs`,
lines 133-143): SemVer order first; at equal SemVer versions the
`(source_id, source_discriminator)` pair is compared in reverse. -/
def Version.cmp (a b : Version) : Ordering :=
  match SemVer.cmp a.version b.version with
  | .eq => (pairCmp a.srcKey b.srcKey).swap
  | o => o

/-- Constructor `Version::new` (`resolver/semver.rs`, lines 91-97):
release version with source id and discriminator 0. -/
def Version.new (major minor patch : Nat) : Version :=
  ⟨⟨major, minor, patch, []⟩, 0, 0⟩

/-- Builder `Version::with_source_id` (`resolver/semver.rs`). -/
def Version.with_source_id (v : Version) (id : Nat) : Version :=
  { v with source_id := id }

/-- Builder `Version::with_source_discriminator` (`resolver/semver.rs`). -/
def Version.with_source_discriminator (v : Version) (d : Nat) : Version :=
  { v with source_discriminator := d }

/-- Constructor `Version::candidate` (`resolver/semver.rs`, lines 99-101):
`Version::new` with the `u64::MAX` marker source id, used for range
endpoints. -/
def Version.candidate (major minor patch : Nat) : Version :=
  (Version.new major minor patch).with_source_id u64MAX

/-- Builder `Version::pre` (`resolver/semver.rs`, lines 103-106): replace
the pre-release tag. -/
def Version.pre (v : Version) (p : Prerelease) : Version :=
  { v with version := { v.version with pre := p } }

/-- Predicate `is_prerelease` (`resolver/semver.rs`, lines 151-155): the
pre-release tag is nonempty. -/
def Version.is_prerelease (v : Version) : Bool :=
  !v.version.pre.isEmpty

/-- Successor `Version::bump` (`resolver/semver.rs`, lines 162-169):
`Version::new(major, minor, patch + 1)` keeping the source id (and hence
resetting the discriminator and dropping any pre-release tag). -/
def Version.bump (v : Version) : Version :=
  (Version.new v.version.major v.version.minor (v.version.patch + 1)).with_source_id
    v.source_id

/-- Constant `Version::lowest` (`resolver/semver.rs`, lines 158-160). -/
def Version.lowest : Version := Version.candidate 0 0 0

/-- A package-version candidate (`resolver/semver.rs`, `struct
Candidate`). Its equality and ordering dispatch to `version` only; the
`source` and `dependencies` trait objects do not take part in comparison
or set membership and are omitted from the model. -/
structure Candidate where
  version : Version
deriving DecidableEq

/-- Total order on `Candidate` (`resolver/semver.rs`, lines 267-273):
dispatches to the `Version` order. -/
def Candidate.cmp (a b : Candidate) : Ordering :=
  Version.cmp a.version b.version

/-- Boolean order `a <= b` on versions, defined through the comparator as
the derived Rust `PartialOrd` does. -/
def Version.leB (a b : Version) : Bool := Version.cmp a b != .gt

/-- Boolean order `a < b` on versions. -/
def Version.ltB (a b : Version) : Bool := Version.cmp a b == .lt

/-- Modelled from the spec (section 4.1): one half-open interval of the
`Range` primitive provided by the pubgrub crate (not among the
sources of this repository). The interval is the conjunction of the lower-bound
constraints `lo <= v` for `lo` in `los` and the upper-bound constraints
`v < hi` for `hi` in `his`; constructors produce at most one bound of each
kind, so a `Seg` denotes a half-open interval `[lo, hi)`, `[lo, inf)`,
`(-inf, hi)` or the full line. -/
structure Seg where
  los : List Version
  his : List Version
deriving DecidableEq

/-- Membership of a version in one interval. -/
def Seg.containsV (s : Seg) (v : Version) : Bool :=
  s.los.all (fun lo => lo.leB v) && s.his.all (fun hi => v.ltB hi)

/-- Modelled from the spec (section 4.1): a `Range` is a finite union of
half-open intervals over the total order on `Version`. -/
abbrev Range := List Seg

/-- Membership in a range: membership in some interval of the union. -/
def Range.containsV (r : Range) (v : Version) : Bool :=
  r.any (fun s => s.containsV v)

/-- Modelled from the spec: the empty range. -/
def Range.noneR : Range := []

/-- Modelled from the spec: the full range. -/
def Range.anyR : Range := [⟨[], []⟩]

/-- Modelled from the spec: the half-open interval `[lo, hi)`. -/
def Range.between (lo hi : Version) : Range := [⟨[lo], [hi]⟩]

/-- Modelled from the spec: the half-line `[v, inf)`. -/
def Range.higher_than (v : Version) : Range := [⟨[v], []⟩]

/-- Modelled from the spec: the half-line `(-inf, v)`. -/
def Range.strictly_lower_than (v : Version) : Range := [⟨[], [v]⟩]

/-- Modelled from the spec: `exact(v)` is the half-open interval from `v`
to its `bump()` successor (the inclusive-to-exclusive transform of the spec). -/
def Range.exact (v : Version) : Range := [⟨[v], [v.bump]⟩]

/-- Modelled from the spec: intersection of two unions of intervals,
distributing the intersection over the unions. -/
def Range.intersection (a b : Range) : Range :=
  a.flatMap (fun sa => b.map (fun sb => ⟨sa.los ++ sb.los, sa.his ++ sb.his⟩))

/-- Complement of one interval: the union of the strict complements of its
bound constraints. -/
def Seg.compl (s : Seg) : Range :=
  s.los.map (fun lo => ⟨[], [lo]⟩) ++ s.his.map (fun hi => ⟨[hi], []⟩)

/-- Modelled from the spec: complement (`negate`), as the intersection of
the complements of the member intervals. -/
def Range.negate : Range → Range
  | [] => Range.anyR
  | s :: rest => Range.intersection s.compl (Range.negate rest)

/-- Modelled from the spec: union via double complement, as the pubgrub
interface derives it. -/
def Range.union (a b : Range) : Range :=
  (Range.intersection a.negate b.negate).negate

/-- The solver version set (`resolver/pubgrub.rs`, `struct VersionSet`): a
pair of ranges, `range` consulted for releases and `pre` for pre-release
versions. -/
structure VersionSet where
  range : Range
  pre : Range
deriving DecidableEq

/-- Function `VersionSet::empty` (`resolver/pubgrub.rs`, lines 36-41). -/
def VersionSet.empty : VersionSet := ⟨Range.noneR, Range.noneR⟩

/-- Function `VersionSet::singleton` (`resolver/pubgrub.rs`, lines 43-67):
dispatch on whether the version of the candidate is a pre-release. -/
def VersionSet.singleton (c : Candidate) : VersionSet :=
  if !c.version.is_prerelease then
    ⟨Range.exact c.version, Range.noneR⟩
  else
    ⟨Range.noneR, Range.exact c.version⟩

/-- Function `VersionSet::complement` (`resolver/pubgrub.rs`, lines 69-74). -/
def VersionSet.complement (s : VersionSet) : VersionSet :=
  ⟨Range.negate s.range, Range.negate s.pre⟩

/-- Function `VersionSet::intersection` (`resolver/pubgrub.rs`, lines
76-81): componentwise intersection. -/
def VersionSet.intersection (s t : VersionSet) : VersionSet :=
  ⟨Range.intersection s.range t.range, Range.intersection s.pre t.pre⟩

/-- Function `VersionSet::contains` (`resolver/pubgrub.rs`, lines 83-109):
releases are tested against `range`, pre-releases against `pre`. -/
def VersionSet.contains (s : VersionSet) (c : Candidate) : Bool :=
  if !c.version.is_prerelease then
    Range.containsV s.range c.version
  else
    Range.containsV s.pre c.version

/-- Function `VersionSet::default` (`resolver/pubgrub.rs`, lines 113-118):
any release, no pre-release. -/
def VersionSet.default : VersionSet := ⟨Range.anyR, Range.noneR⟩

/-- Function `VersionSet::exact` (`resolver/pubgrub.rs`, lines 120-125):
both components are `Range::exact(v)`. -/
def VersionSet.exact (v : Version) : VersionSet :=
  ⟨Range.exact v, Range.exact v⟩

/-- Function `VersionSet::between` (`resolver/pubgrub.rs`, lines 127-132). -/
def VersionSet.between (lo hi : Version) : VersionSet :=
  ⟨Range.between lo hi, Range.between lo hi⟩

/-- Function `VersionSet::higher_than` (`resolver/pubgrub.rs`, lines
134-139). -/
def VersionSet.higher_than (v : Version) : VersionSet :=
  ⟨Range.higher_than v, Range.higher_than v⟩

/-- Function `VersionSet::strictly_lower_than` (`resolver/pubgrub.rs`,
lines 141-146). -/
def VersionSet.strictly_lower_than (v : Version) : VersionSet :=
  ⟨Range.strictly_lower_than v, Range.strictly_lower_than v⟩

/-- Function `VersionSet::with_normal` (`resolver/pubgrub.rs`, lines
148-153): intersect the release component, keep `pre`. -/
def VersionSet.with_normal (s other : VersionSet) : VersionSet :=
  ⟨Range.intersection s.range other.range, s.pre⟩

/-- Function `VersionSet::with_pre` (`resolver/pubgrub.rs`, lines
155-160): keep `range`, union the pre-release component. -/
def VersionSet.with_pre (s other : VersionSet) : VersionSet :=
  ⟨s.range, Range.union s.pre other.pre⟩

/-- SemVer requirement operator (`semver::Op`); only these eight occur. -/
inductive Op where
  | Exact
  | Greater
  | GreaterEq
  | Less
  | LessEq
  | Tilde
  | Caret
  | Wildcard
deriving DecidableEq

/-- A SemVer comparator (`semver::Comparator`): operator, major, optional
minor and patch, and a pre-release tag (empty list for none). -/
structure Comparator where
  op : Op
  major : Nat
  minor : Option Nat
  patch : Option Nat
  pre : Prerelease
deriving DecidableEq

/-- Function `bump_pre` (`resolver/semver.rs`, lines 335-338): append the
identifier `0` to a pre-release tag. -/
def bump_pre (p : Prerelease) : Prerelease := p ++ [Ident.num 0]

/-- Function `convert_prerelease` (`resolver/semver.rs`, lines 340-350):
empty unless the comparator carries a pre-release tag, otherwise the
window from `I.J.K-P` (inclusive) to `I.J.K` (exclusive). The Rust code
unwraps `minor` and `patch`; the model returns `none` where the unwrap
would panic. -/
def convert_prerelease (comp : Comparator) : Option VersionSet :=
  match comp.pre with
  | [] => some VersionSet.empty
  | p :: ps =>
    match comp.minor, comp.patch with
    | some minor, some patch =>
      some (VersionSet.between
        ((Version.candidate comp.major minor patch).pre (p :: ps))
        (Version.candidate comp.major minor patch))
    | _, _ => none

/-- Function `convert_normal` (`resolver/semver.rs`, lines 352-563): the
per-operator translation of one comparator into a `VersionSet`. Arms that
are `unreachable!()` in the Rust code are modelled as `none`. -/
def convert_normal (comp : Comparator) : Option VersionSet :=
  match comp.op, comp.minor, comp.patch, comp.pre with
  | .Exact, some minor, some patch, p :: ps =>
    some (VersionSet.between
      ((Version.candidate comp.major minor patch).pre (p :: ps))
      (Version.candidate comp.major minor patch))
  | .Exact, some minor, some patch, [] =>
    some (VersionSet.exact (Version.candidate comp.major minor patch))
  | .Exact, some minor, none, [] =>
    some (VersionSet.between (Version.candidate comp.major minor 0)
      (Version.candidate comp.major (minor + 1) 0))
  | .Exact, none, none, [] =>
    some (VersionSet.between (Version.candidate comp.major 0 0)
      (Version.candidate (comp.major + 1) 0 0))
  | .Greater, some minor, some patch, p :: ps =>
    some (VersionSet.higher_than
      ((Version.candidate comp.major minor patch).pre (bump_pre (p :: ps))))
  | .Greater, some minor, some patch, [] =>
    some (VersionSet.higher_than (Version.candidate comp.major minor (patch + 1)))
  | .Greater, some minor, none, [] =>
    some (VersionSet.higher_than (Version.candidate comp.major (minor + 1) 0))
  | .Greater, none, none, [] =>
    some (VersionSet.higher_than (Version.candidate (comp.major + 1) 0 0))
  | .GreaterEq, some minor, some patch, p :: ps =>
    some (VersionSet.higher_than
      ((Version.candidate comp.major minor patch).pre (p :: ps)))
  | .GreaterEq, some minor, some patch, [] =>
    some (VersionSet.higher_than (Version.candidate comp.major minor patch))
  | .GreaterEq, some minor, none, [] =>
    some (VersionSet.higher_than (Version.candidate comp.major minor 0))
  | .GreaterEq, none, none, [] =>
    some (VersionSet.higher_than (Version.candidate comp.major 0 0))
  | .Less, some minor, some patch, p :: ps =>
    some (VersionSet.strictly_lower_than
      ((Version.candidate comp.major minor patch).pre (p :: ps)))
  | .Less, some minor, some patch, [] =>
    some (VersionSet.strictly_lower_than (Version.candidate comp.major minor patch))
  | .Less, some minor, none, [] =>
    some (VersionSet.strictly_lower_than (Version.candidate comp.major minor 0))
  | .Less, none, none, [] =>
    some (VersionSet.strictly_lower_than (Version.candidate comp.major 0 0))
  | .LessEq, some minor, some patch, p :: ps =>
    some (VersionSet.strictly_lower_than
      ((Version.candidate comp.major minor patch).pre (bump_pre (p :: ps))))
  | .LessEq, some minor, some patch, [] =>
    some (VersionSet.strictly_lower_than
      (Version.candidate comp.major minor (patch + 1)))
  | .LessEq, some minor, none, [] =>
    some (VersionSet.strictly_lower_than
      (Version.candidate comp.major (minor + 1) 0))
  | .LessEq, none, none, [] =>
    some (VersionSet.strictly_lower_than (Version.candidate (comp.major + 1) 0 0))
  | .Tilde, some minor, some patch, p :: ps =>
    some (VersionSet.between
      ((Version.candidate comp.major minor patch).pre (p :: ps))
      (Version.candidate comp.major (minor + 1) 0))
  | .Tilde, some minor, some patch, [] =>
    some (VersionSet.between (Version.candidate comp.major minor patch)
      (Version.candidate comp.major (minor + 1) 0))
  | .Tilde, some minor, none, [] =>
    some (VersionSet.between (Version.candidate comp.major minor 0)
      (Version.candidate comp.major (minor + 1) 0))
  | .Tilde, none, none, [] =>
    some (VersionSet.between (Version.candidate comp.major 0 0)
      (Version.candidate (comp.major + 1) 0 0))
  | .Caret, some minor, some patch, p :: ps =>
    some (if comp.major > 0 then
      VersionSet.between
        ((Version.candidate comp.major minor patch).pre (p :: ps))
        (Version.candidate (comp.major + 1) 0 0)
    else if minor > 0 then
      VersionSet.between ((Version.candidate 0 minor patch).pre (p :: ps))
        (Version.candidate 0 (minor + 1) 0)
    else
      VersionSet.between
        ((Version.candidate comp.major minor patch).pre (p :: ps))
        (Version.candidate comp.major minor patch))
  | .Caret, some minor, some patch, [] =>
    some (if comp.major > 0 then
      VersionSet.between (Version.candidate comp.major minor patch)
        (Version.candidate (comp.major + 1) 0 0)
    else if minor > 0 then
      VersionSet.between (Version.candidate 0 minor patch)
        (Version.candidate 0 (minor + 1) 0)
    else
      VersionSet.exact (Version.candidate 0 0 patch))
  | .Caret, some minor, none, [] =>
    some (if comp.major > 0 || minor > 0 then
      VersionSet.between (Version.candidate comp.major minor 0)
        (Version.candidate (comp.major + 1) 0 0)
    else
      VersionSet.between (Version.candidate comp.major minor 0)
        (Version.candidate comp.major (minor + 1) 0))
  | .Caret, none, none, [] =>
    some (VersionSet.between (Version.candidate comp.major 0 0)
      (Version.candidate (comp.major + 1) 0 0))
  | .Wildcard, some minor, none, _ =>
    some (VersionSet.between (Version.candidate comp.major minor 0)
      (Version.candidate comp.major (minor + 1) 0))
  | .Wildcard, none, none, _ =>
    some (VersionSet.between (Version.candidate comp.major 0 0)
      (Version.candidate (comp.major + 1) 0 0))
  | _, _, _, _ => none

/-- A version requirement: the conjunction of its comparators
(`semver::VersionReq`, field `comparators`). -/
abbrev Requirement := List Comparator

/-- Translation of a requirement into a `VersionSet`
(`resolver/semver.rs`, lines 291-333, `From<&Requirement> for
VersionSet<Candidate>`): fold over the comparators, intersecting the
release component and unioning in the pre-release windows. -/
def Requirement.toVersionSet (req : Requirement) : Option VersionSet :=
  req.foldlM (fun vs comp => do
    let n ← convert_normal comp
    let p ← convert_prerelease comp
    pure ((vs.with_normal n).with_pre p)) VersionSet.default

/-- Modelled from the spec: a version literal `I.J.K-P` of the operator
table in section 4.3, embedded as a range endpoint the way the code
represents endpoints (SemVer triple plus pre-release tag, with the
`u64::MAX` marker source). -/
def specV (i j k : Nat) (p : Prerelease) : Version :=
  ⟨⟨i, j, k, p⟩, u64MAX, 0⟩

/-- Modelled from the spec: the operator/arity table of section 4.3
(`convert_normal(c)`), transcribed row by row. `P.0` is the pre-release
produced by appending `.0` to `P`. The caret rules follow the bullet list:
`^I.J.K` with `I>0` is `[I.J.K, (I+1).0.0)`; `^0.J.K` with `J>0` is
`[0.J.K, 0.(J+1).0)`; `^0.0.K` is `exact(0.0.K)`; `^I.J` with `I>0 or J>0`
is `[I.J.0, (I+1).0.0)`; `^0.0` is `[0.0.0, 0.1.0)`; pre-release variants
anchor the left endpoint at the pre-release version (for `^0.0.K-P` the
right endpoint is `0.0.K`, matching the full-arity pre-release column of
the table for `=`, to which `^0.0.K` is equivalent). Combinations outside the
table (patch without minor, wildcard at the patch position or with
patch present) are `none`. -/
def spec_normal_interval (c : Comparator) : Option Range :=
  match c.op, c.minor, c.patch, c.pre with
  | .Exact, some j, some k, p :: ps =>
    some (Range.between (specV c.major j k (p :: ps)) (specV c.major j k []))
  | .Exact, some j, some k, [] =>
    some (Range.exact (specV c.major j k []))
  | .Exact, some j, none, [] =>
    some (Range.between (specV c.major j 0 []) (specV c.major (j + 1) 0 []))
  | .Exact, none, none, [] =>
    some (Range.between (specV c.major 0 0 []) (specV (c.major + 1) 0 0 []))
  | .Greater, some j, some k, p :: ps =>
    some (Range.higher_than (specV c.major j k ((p :: ps) ++ [Ident.num 0])))
  | .Greater, some j, some k, [] =>
    some (Range.higher_than (specV c.major j (k + 1) []))
  | .Greater, some j, none, [] =>
    some (Range.higher_than (specV c.major (j + 1) 0 []))
  | .Greater, none, none, [] =>
    some (Range.higher_than (specV (c.major + 1) 0 0 []))
  | .GreaterEq, some j, some k, p :: ps =>
    some (Range.higher_than (specV c.major j k (p :: ps)))
  | .GreaterEq, some j, some k, [] =>
    some (Range.higher_than (specV c.major j k []))
  | .GreaterEq, some j, none, [] =>
    some (Range.higher_than (specV c.major j 0 []))
  | .GreaterEq, none, none, [] =>
    some (Range.higher_than (specV c.major 0 0 []))
  | .Less, some j, some k, p :: ps =>
    some (Range.strictly_lower_than (specV c.major j k (p :: ps)))
  | .Less, some j, some k, [] =>
    some (Range.strictly_lower_than (specV c.major j k []))
  | .Less, some j, none, [] =>
    some (Range.strictly_lower_than (specV c.major j 0 []))
  | .Less, none, none, [] =>
    some (Range.strictly_lower_than (specV c.major 0 0 []))
  | .LessEq, some j, some k, p :: ps =>
    some (Range.strictly_lower_than (specV c.major j k ((p :: ps) ++ [Ident.num 0])))
  | .LessEq, some j, some k, [] =>
    some (Range.strictly_lower_than (specV c.major j (k + 1) []))
  | .LessEq, some j, none, [] =>
    some (Range.strictly_lower_than (specV c.major (j + 1) 0 []))
  | .LessEq, none, none, [] =>
    some (Range.strictly_lower_than (specV (c.major + 1) 0 0 []))
  | .Tilde, some j, some k, p :: ps =>
    some (Range.between (specV c.major j k (p :: ps)) (specV c.major (j + 1) 0 []))
  | .Tilde, some j, some k, [] =>
    some (Range.between (specV c.major j k []) (specV c.major (j + 1) 0 []))
  | .Tilde, some j, none, [] =>
    some (Range.between (specV c.major j 0 []) (specV c.major (j + 1) 0 []))
  | .Tilde, none, none, [] =>
    some (Range.between (specV c.major 0 0 []) (specV (c.major + 1) 0 0 []))
  | .Caret, some j, some k, p :: ps =>
    some (if c.major > 0 then
      Range.between (specV c.major j k (p :: ps)) (specV (c.major + 1) 0 0 [])
    else if j > 0 then
      Range.between (specV 0 j k (p :: ps)) (specV 0 (j + 1) 0 [])
    else
      Range.between (specV c.major j k (p :: ps)) (specV c.major j k []))
  | .Caret, some j, some k, [] =>
    some (if c.major > 0 then
      Range.between (specV c.major j k []) (specV (c.major + 1) 0 0 [])
    else if j > 0 then
      Range.between (specV 0 j k []) (specV 0 (j + 1) 0 [])
    else
      Range.exact (specV 0 0 k []))
  | .Caret, some j, none, [] =>
    some (if c.major > 0 || j > 0 then
      Range.between (specV c.major j 0 []) (specV (c.major + 1) 0 0 [])
    else
      Range.between (specV c.major j 0 []) (specV c.major (j + 1) 0 []))
  | .Caret, none, none, [] =>
    some (Range.between (specV c.major 0 0 []) (specV (c.major + 1) 0 0 []))
  | .Wildcard, some j, none, [] =>
    some (Range.between (specV c.major j 0 []) (specV c.major (j + 1) 0 []))
  | .Wildcard, none, none, [] =>
    some (Range.between (specV c.major 0 0 []) (specV (c.major + 1) 0 0 []))
  | _, _, _, _ => none

/-- Well-formedness of a comparator, as guaranteed by the semver parser
(spec section 3: patch presence implies minor presence; a pre-release
implies all of major/minor/patch; a wildcard at the patch position is
rejected, and a wildcard comparator carries no pre-release tag). -/
def Comparator.wf (c : Comparator) : Prop :=
  (c.patch.isSome → c.minor.isSome) ∧
    (c.pre ≠ [] → c.patch.isSome) ∧
    (c.op = .Wildcard → c.pre = [] ∧ c.patch = none)

/-- The synthetic root package name (`resolver/mod.rs`, line 32, and
`resolver/types/name.rs`, line 12). -/
def ROOT_NAME : String := "requested packages"

/-- Solver package name (`resolver/mod.rs`, `struct Name`, identical in
`resolver/types/name.rs`): a package name plus a root marker. Package
names are modelled as their normalised strings. -/
structure Name where
  root : Bool
  name : String
deriving DecidableEq

/-- Constructor `Name::new` (`resolver/mod.rs`, lines 52-55, identical in
`resolver/types/name.rs`, lines 30-33): a non-root name. The Rust code
asserts `name != ROOT_NAME`; callers only reach it through `From<PackageName>`. -/
def Name.new (n : String) : Name := ⟨false, n⟩

/-- Constructor `Name::root` (`resolver/mod.rs`, lines 57-62, identical in
`resolver/types/name.rs`, lines 35-40): the synthetic root name. -/
def Name.mkRoot : Name := ⟨true, ROOT_NAME⟩

/-- Predicate `Name::is_root` as written in `resolver/mod.rs`, lines
64-66: it returns the negation of the `root` field. -/
def ResolverMod.is_root (n : Name) : Bool := !n.root

/-- Predicate `Name::is_root` as written in `resolver/types/name.rs`,
lines 42-44: it returns the `root` field. -/
def ResolverTypes.is_root (n : Name) : Bool := n.root

/-- One entry of the resolver output (`Package::new(p.name, c.version(),
c.source())` in `resolver/mod.rs`, lines 166-174); the source display
object is omitted. -/
structure Package where
  name : String
  version : Version
deriving DecidableEq

/-- Post-processing of the pubgrub solution in `Solver::resolve`
(`resolver/mod.rs`, lines 159-174): the entry keyed by the synthetic root
name is removed from the solution map, and the remaining entries are
re-keyed by their package name. The solution map produced by the external
`resolve` call is taken as an arbitrary association list. -/
def Solver.resolvePost (sol : List (Name × Candidate)) : List (String × Package) :=
  (sol.filter (fun e => decide (e.1 ≠ Name.mkRoot))).map
    (fun e => (e.1.name, ⟨e.1.name, e.2.version⟩))

/-- Candidate as built by `Repository::candidates` for a version found in
the repository at (zero-based) declaration index `idx`: per spec section
4.5 the candidate is tagged with `source_id = idx + 1` (0 is reserved for
the synthetic root); the within-repository discriminator plays no role
here and is 0. Modelled from the spec for the source tagging, since the
glue between `repository.rs` and the `resolver/semver.rs` `Candidate` is
not part of the sources. -/
def Candidate.fromRepo (v : SemVer) (idx : Nat) : Candidate :=
  ⟨⟨v, idx + 1, 0⟩⟩

/-- The unsorted candidate list accumulated by `Repository::candidates`
(`repository.rs`, lines 90-102): repositories in declaration order, each
contributing its (unordered) version list for the package. -/
def Repository.rawCandidates (repos : List (List SemVer)) : List Candidate :=
  (repos.enum.map (fun p => p.2.map (fun v => Candidate.fromRepo v p.1))).flatten

/-- Function `Repository::candidates` (`repository.rs`, lines 89-110): the
accumulated list sorted by `sort_by(|l, r| l.cmp(r).reverse())`, i.e. a
stable sort that is non-increasing in the candidate order. -/
def Repository.candidates (repos : List (List SemVer)) : List Candidate :=
  (Repository.rawCandidates repos).mergeSort
    (fun l r => Candidate.cmp l r != .lt)

/-- A parsed package specifier (`types.rs` / `lib.rs`,
`struct PackageSpecifier`): name plus version requirement. -/
structure PackageSpecifier where
  name : String
  version : Requirement
deriving DecidableEq

/-- One entry of the persisted requested map (`pkgdb.rs`, `struct
PackageRequest`). -/
structure PackageRequest where
  name : String
  version : Requirement
deriving DecidableEq

/-- The persisted state document (`pkgdb.rs`, `struct State`): the
requested map, modelled as an association list keyed by package name. -/
structure PkgState where
  requested : List (String × PackageRequest)
deriving DecidableEq

/-- Map insertion replacing any previous binding of the key (`HashMap::insert`). -/
def PkgState.insert (s : PkgState) (k : String) (v : PackageRequest) : PkgState :=
  ⟨(k, v) :: s.requested.filter (fun e => e.1 != k)⟩

/-- The observable contents of `<target>/pkgdb/state.yml`: `none` when the
file is absent, otherwise the parsed document. Serialisation is modelled
by storing the document itself. -/
structure DbFS where
  stateFile : Option PkgState
deriving DecidableEq

/-- Function `State::load` (`pkgdb.rs`, lines 35-47): read the state file,
or an empty state when the file is absent. -/
def State.load (fs : DbFS) : PkgState :=
  fs.stateFile.getD ⟨[]⟩

/-- The in-memory side of `Database` (`pkgdb.rs`, lines 60-64): the lazily
loaded state; `Database::new` starts with `state = None`. The `fs` handle
and target id are threaded separately. -/
structure Database where
  state : Option PkgState
deriving DecidableEq

/-- Persistence errors relevant to the transaction discipline
(`errors.rs`, `DBError::NoTransaction`). -/
inductive DBError where
  | NoTransaction
deriving DecidableEq

/-- Method `Database::state` (`pkgdb.rs`, lines 122-128): when a
transaction is active (`in_transaction`, observed via the named lock) and
no state is loaded yet, load it lazily from the file; afterwards return
the loaded state or fail with `NoTransaction`. The lock observation is
modelled by the boolean `active`. -/
def Database.stateFn (active : Bool) (fs : DbFS) (db : Database) :
    Except DBError (Database × PkgState) :=
  let db' : Database :=
    if active && db.state.isNone then ⟨some (State.load fs)⟩ else db
  match db'.state with
  | some s => .ok (⟨some s⟩, s)
  | none => .error .NoTransaction

/-- Method `Database::add` (`pkgdb.rs`, lines 101-110): insert or replace
the requested entry in the in-memory state; the file system is returned
unchanged because the method performs no write. -/
def Database.add (active : Bool) (fs : DbFS) (db : Database)
    (package : PackageSpecifier) : Except DBError (Database × DbFS) :=
  match Database.stateFn active fs db with
  | .error e => .error e
  | .ok (_, s) =>
    .ok (⟨some (s.insert package.name ⟨package.name, package.version⟩)⟩, fs)

/-- Method `Database::requested` (`pkgdb.rs`, lines 112-114): read the
requested map from the (lazily loaded) state. -/
def Database.requested (active : Bool) (fs : DbFS) (db : Database) :
    Except DBError (Database × DbFS × List (String × PackageRequest)) :=
  match Database.stateFn active fs db with
  | .error e => .error e
  | .ok (db', s) => .ok (db', fs, s.requested)

/-- Method `Database::commit` (`pkgdb.rs`, lines 83-99): save the built-up
state to the state file (`State::save`), then clear the in-memory state
and release the transaction. -/
def Database.commit (active : Bool) (fs : DbFS) (db : Database) :
    Except DBError (Database × DbFS) :=
  match Database.stateFn active fs db with
  | .error e => .error e
  | .ok (_, s) => .ok (⟨none⟩, ⟨some s⟩)

/-- One operation of a transaction body that does not commit: the
operations available on the database inside the transaction. -/
inductive TxnOp where
  | add (p : PackageSpecifier)
  | requested
deriving DecidableEq

/-- Run a transaction body (a list of `add`/`requested` calls); the `?`
operator in Rust stops at the first error, leaving the later operations
unexecuted. The boolean result records whether an error occurred. -/
def Database.runBody (active : Bool) : DbFS → Database → List TxnOp →
    DbFS × Database × Bool
  | fs, db, [] => (fs, db, false)
  | fs, db, op :: ops =>
    match op with
    | .add p =>
      match Database.add active fs db p with
      | .error _ => (fs, db, true)
      | .ok (db', fs') => Database.runBody active fs' db' ops
    | .requested =>
      match Database.requested active fs db with
      | .error _ => (fs, db, true)
      | .ok (db', fs', _) => Database.runBody active fs' db' ops

instance : TransCmp Ident.cmp where
  symm x y := by
    cases x <;> cases y <;> simp only [Ident.cmp, Ordering.swap] <;>
      exact OrientedCmp.symm ..
  le_trans {x y z} h1 h2 := by
    cases x <;> cases y <;> cases z <;>
      simp_all only [Ident.cmp, ne_eq, reduceCtorEq, not_false_eq_true,
        not_true_eq_false] <;>
      exact TransCmp.le_trans h1 h2

theorem listCmp_swap (c : α → α → Ordering) [OrientedCmp c] :
    ∀ as bs, (listCmp c as bs).swap = listCmp c bs as := by
  intro as
  induction as with
  | nil => intro bs; cases bs <;> rfl
  | cons a as ih =>
    intro bs
    cases bs with
    | nil => rfl
    | cons b bs =>
      simp only [listCmp, Ordering.swap_then, ih, OrientedCmp.symm]

instance (c : α → α → Ordering) [OrientedCmp c] : OrientedCmp (listCmp c) where
  symm x y := listCmp_swap c x y

theorem listCmp_le_trans (c : α → α → Ordering) [TransCmp c] :
    ∀ as bs cs, listCmp c as bs ≠ .gt → listCmp c bs cs ≠ .gt →
      listCmp c as cs ≠ .gt := by
  intro as
  induction as with
  | nil =>
    intro bs cs _ _
    cases cs <;> simp [listCmp]
  | cons a as ih =>
    intro bs cs h1 h2
    cases bs with
    | nil => cases h1 (by rfl)
    | cons b bs =>
      cases cs with
      | nil => cases h2 (by rfl)
      | cons c2 cs =>
        simp only [listCmp, ne_eq, Ordering.then_eq_gt, not_or, not_and] at h1 h2 ⊢
        refine ⟨TransCmp.le_trans h1.1 h2.1, fun e1 e2 => ?_⟩
        match hab : c a b with
        | .gt => exact h1.1 hab
        | .eq =>
          exact ih bs cs (h1.2 hab)
            (h2.2 (TransCmp.cmp_congr_left hab ▸ e1)) e2
        | .lt =>
          exact h2.1 (OrientedCmp.cmp_eq_gt.2 (TransCmp.cmp_congr_left e1 ▸ hab))

instance (c : α → α → Ordering) [TransCmp c] : TransCmp (listCmp c) where
  le_trans h1 h2 := listCmp_le_trans c _ _ _ h1 h2

instance : OrientedCmp Prerelease.cmp where
  symm x y := by
    cases x <;> cases y <;> first
      | rfl
      | exact listCmp_swap Ident.cmp ..

instance : TransCmp Prerelease.cmp where
  le_trans {x y z} h1 h2 := by
    cases x <;> cases y <;> cases z <;>
        simp_all only [Prerelease.cmp, ne_eq, reduceCtorEq, not_false_eq_true,
          not_true_eq_false]
    exact listCmp_le_trans Ident.cmp _ _ _ h1 h2

theorem semverCmp_eq_lex : SemVer.cmp =
    compareLex (compareOn SemVer.major) (compareLex (compareOn SemVer.minor)
      (compareLex (compareOn SemVer.patch) (Ordering.byKey SemVer.pre Prerelease.cmp))) :=
  rfl

instance : TransCmp SemVer.cmp := semverCmp_eq_lex ▸
  inferInstanceAs (TransCmp (compareLex (compareOn SemVer.major)
    (compareLex (compareOn SemVer.minor)
      (compareLex (compareOn SemVer.patch) (Ordering.byKey SemVer.pre Prerelease.cmp)))))

theorem pairCmp_eq_lex :
    pairCmp = compareLex (compareOn Prod.fst) (compareOn Prod.snd) := rfl

instance : TransCmp pairCmp := pairCmp_eq_lex ▸
  inferInstanceAs (TransCmp (compareLex (compareOn Prod.fst) (compareOn Prod.snd)))

theorem versionCmp_eq_lex : Version.cmp =
    compareLex (Ordering.byKey Version.version SemVer.cmp)
      (Ordering.byKey Version.srcKey (flip pairCmp)) := by
  funext a b
  show Version.cmp a b =
    (SemVer.cmp a.version b.version).then (pairCmp b.srcKey a.srcKey)
  rw [Version.cmp]
  rcases h : SemVer.cmp a.version b.version with _ | _ | _ <;>
    simp [Ordering.then, OrientedCmp.symm]

instance : TransCmp Version.cmp := versionCmp_eq_lex ▸
  inferInstanceAs (TransCmp (compareLex (Ordering.byKey Version.version SemVer.cmp)
    (Ordering.byKey Version.srcKey (flip pairCmp))))

instance : TransCmp Candidate.cmp :=
  inferInstanceAs (TransCmp (Ordering.byKey Candidate.version Version.cmp))

theorem Version.not_leB (a b : Version) : (!a.leB b) = b.ltB a := by
  unfold Version.leB Version.ltB
  have hs : Version.cmp b a = (Version.cmp a b).swap :=
    (OrientedCmp.symm a b).symm
  rcases h : Version.cmp a b with _ | _ | _ <;> rw [h] at hs <;> rw [hs] <;> rfl

theorem Version.not_ltB (a b : Version) : (!a.ltB b) = b.leB a := by
  have := Version.not_leB b a
  rw [← this, Bool.not_not]

theorem Seg.containsV_inter (sa sb : Seg) (v : Version) :
    Seg.containsV ⟨sa.los ++ sb.los, sa.his ++ sb.his⟩ v =
      (sa.containsV v && sb.containsV v) := by
  simp only [Seg.containsV, List.all_append]
  cases sa.los.all (fun lo => lo.leB v) <;>
    cases sb.los.all (fun lo => lo.leB v) <;>
    cases sa.his.all (fun hi => v.ltB hi) <;>
    cases sb.his.all (fun hi => v.ltB hi) <;> rfl

theorem Range.containsV_intersection (a b : Range) (v : Version) :
    (a.intersection b).containsV v = (a.containsV v && b.containsV v) := by
  rw [Bool.eq_iff_iff]
  simp only [Range.containsV, Range.intersection, List.any_eq_true,
    List.mem_flatMap, List.mem_map, Bool.and_eq_true]
  constructor
  · rintro ⟨s, ⟨sa, hsa, sb, hsb, rfl⟩, hc⟩
    rw [Seg.containsV_inter, Bool.and_eq_true] at hc
    exact ⟨⟨sa, hsa, hc.1⟩, ⟨sb, hsb, hc.2⟩⟩
  · rintro ⟨⟨sa, hsa, h1⟩, ⟨sb, hsb, h2⟩⟩
    refine ⟨_, ⟨sa, hsa, sb, hsb, rfl⟩, ?_⟩
    rw [Seg.containsV_inter, Bool.and_eq_true]
    exact ⟨h1, h2⟩

theorem Range.any_lowBounds (v : Version) (ls : List Version) :
    (ls.map (fun lo => (⟨[], [lo]⟩ : Seg))).any (fun s => s.containsV v) =
      !ls.all (fun lo => lo.leB v) := by
  induction ls with
  | nil => rfl
  | cons a ls ih =>
    simp only [List.map_cons, List.any_cons, List.all_cons, Bool.not_and, ih]
    have : Seg.containsV ⟨[], [a]⟩ v = v.ltB a := by
      simp [Seg.containsV]
    rw [this, ← Version.not_leB]

theorem Range.any_highBounds (v : Version) (hs : List Version) :
    (hs.map (fun hi => (⟨[hi], []⟩ : Seg))).any (fun s => s.containsV v) =
      !hs.all (fun hi => v.ltB hi) := by
  induction hs with
  | nil => rfl
  | cons a hs ih =>
    simp only [List.map_cons, List.any_cons, List.all_cons, Bool.not_and, ih]
    have : Seg.containsV ⟨[a], []⟩ v = a.leB v := by
      simp [Seg.containsV]
    rw [this, ← Version.not_ltB]

theorem Seg.containsV_compl (s : Seg) (v : Version) :
    (Seg.compl s).containsV v = !s.containsV v := by
  rcases s with ⟨los, his⟩
  show (los.map _ ++ his.map _ : Range).containsV v = _
  simp only [Range.containsV, List.any_append]
  rw [show (List.any (los.map fun lo => (⟨[], [lo]⟩ : Seg))
        fun s => s.containsV v) = _ from Range.any_lowBounds v los,
    show (List.any (his.map fun hi => (⟨[hi], []⟩ : Seg))
        fun s => s.containsV v) = _ from Range.any_highBounds v his]
  simp [Seg.containsV, Bool.not_and]

theorem Range.containsV_negate (r : Range) (v : Version) :
    (Range.negate r).containsV v = !r.containsV v := by
  induction r with
  | nil => rfl
  | cons s rest ih =>
    show (Range.intersection s.compl (Range.negate rest)).containsV v = _
    rw [Range.containsV_intersection, Seg.containsV_compl, ih]
    simp only [Range.containsV, List.any_cons, Bool.not_or]

theorem Range.containsV_union (a b : Range) (v : Version) :
    (Range.union a b).containsV v = (a.containsV v || b.containsV v) := by
  simp only [Range.union, Range.containsV_negate, Range.containsV_intersection,
    Bool.not_and, Bool.not_not]

instance (c : Comparator) : Decidable c.wf := by
  unfold Comparator.wf; infer_instance

/-- Claim C7: for all version sets `s` and `t` and every candidate `c`,
`(s.intersection t).contains c` holds exactly when both `s.contains c`
and `t.contains c` hold. -/
theorem C7_intersection_contains (s t : VersionSet) (c : Candidate) :
    (s.intersection t).contains c = (s.contains c && t.contains c) := by
  unfold VersionSet.contains VersionSet.intersection
  cases h : !c.version.is_prerelease <;>
    simp [h, Range.containsV_intersection]

/-- Claim C3 counterexample: for the release version 1.2.3,
`VersionSet::exact` has a nonempty `pre` component (it is
`Range::exact(1.2.3)`, not the empty range), and the resulting set
contains the pre-release candidate 1.2.4-alpha; moreover
`VersionSet::singleton` of the same version differs from
`VersionSet::exact` (it does not contain 1.2.4-alpha), refuting both the
claimed pair `(Range::exact(v), empty)` and `singleton = exact`. -/
theorem C3_counterexample :
    (VersionSet.exact (Version.candidate 1 2 3)).pre ≠ Range.noneR ∧
    (VersionSet.exact (Version.candidate 1 2 3)).contains
      ⟨⟨⟨1, 2, 4, [.str "alpha"]⟩, 1, 0⟩⟩ = true ∧
    Version.is_prerelease ⟨⟨1, 2, 4, [.str "alpha"]⟩, 1, 0⟩ = true ∧
    Version.is_prerelease (Version.candidate 1 2 3) = false ∧
    VersionSet.singleton ⟨Version.candidate 1 2 3⟩ ≠
      VersionSet.exact (Version.candidate 1 2 3) ∧
    (VersionSet.singleton ⟨Version.candidate 1 2 3⟩).contains
      ⟨⟨⟨1, 2, 4, [.str "alpha"]⟩, 1, 0⟩⟩ = false := by
  refine ⟨by decide, by decide, rfl, rfl, by decide, by decide⟩

/-- Claim C3 amended: `VersionSet::exact(v)` is the pair
`(Range::exact(v), Range::exact(v))` for every version `v` (so it contains
every candidate, pre-release or not, whose version lies in
`[v, v.bump())`), while `VersionSet::singleton(c)` is
`(Range::exact, empty)` for a release and `(empty, Range::exact)` for a
pre-release, i.e. it additionally requires the tested candidate to have
the same pre-release status as `c`. -/
theorem C3_amended (v : Version) (c d : Candidate) :
    VersionSet.exact v = ⟨Range.exact v, Range.exact v⟩ ∧
    (VersionSet.exact v).contains c =
      (Version.leB v c.version && Version.ltB c.version v.bump) ∧
    (VersionSet.singleton d).contains c =
      ((d.version.is_prerelease == c.version.is_prerelease) &&
        (Version.leB d.version c.version &&
          Version.ltB c.version d.version.bump)) := by
  refine ⟨rfl, ?_, ?_⟩
  · unfold VersionSet.contains VersionSet.exact
    cases h : !c.version.is_prerelease <;>
      simp [h, Range.containsV, Range.exact, Seg.containsV]
  · unfold VersionSet.contains VersionSet.singleton
    cases hd : d.version.is_prerelease <;>
      cases hc : c.version.is_prerelease <;>
        simp [hd, hc, Range.containsV, Range.exact, Range.noneR, Seg.containsV]

/-- Claim C6: the claim describes `is_root` as true on the synthetic root
and false on names built by `Name::new`; the implementation in
`resolver/types/name.rs` satisfies this, but the implementation in
`resolver/mod.rs` returns `!self.root` and hence the opposite value on
both inputs — the code bug the spec flags. This theorem evaluates both
implementations on the failing inputs. -/
theorem C6_is_root_inverted :
    ResolverMod.is_root Name.mkRoot = false ∧
    ResolverMod.is_root (Name.new "foo") = true ∧
    ResolverTypes.is_root Name.mkRoot = true ∧
    (∀ s : String, ResolverTypes.is_root (Name.new s) = false) ∧
    (∀ s : String, ResolverMod.is_root (Name.new s) = true) :=
  ⟨rfl, rfl, rfl, fun _ => rfl, fun _ => rfl⟩

/-- Claim C10: `Version::bump` returns `(major, minor, patch + 1)` with an
empty pre-release tag, the same `source_id`, and `source_discriminator`
reset to 0; in particular the successor of 1.2.3-alpha is 1.2.4 (not the
release 1.2.3), so the half-line starting at `bump(1.2.3-alpha)` excludes
both the remaining 1.2.3 pre-releases and the release 1.2.3 itself. -/
theorem C10_bump (v : Version) :
    Version.bump v =
      ⟨⟨v.version.major, v.version.minor, v.version.patch + 1, []⟩,
        v.source_id, 0⟩ ∧
    Version.bump ⟨⟨1, 2, 3, [.str "alpha"]⟩, 5, 7⟩ = ⟨⟨1, 2, 4, []⟩, 5, 0⟩ ∧
    (⟨⟨1, 2, 4, []⟩, 5, 0⟩ : Version) ≠ ⟨⟨1, 2, 3, []⟩, 5, 0⟩ ∧
    (Range.higher_than (Version.bump ⟨⟨1, 2, 3, [.str "alpha"]⟩, 1, 0⟩)).containsV
      ⟨⟨1, 2, 3, [.str "beta"]⟩, 1, 0⟩ = false ∧
    (Range.higher_than (Version.bump ⟨⟨1, 2, 3, [.str "alpha"]⟩, 1, 0⟩)).containsV
      ⟨⟨1, 2, 3, []⟩, 1, 0⟩ = false :=
  ⟨rfl, rfl, by decide, by decide, by decide⟩

/-- Claim C8: a transaction body made of `Database::add` and
`Database::requested` calls never changes the state file, whether it runs
to completion or stops at an error — only `Database::commit` writes
`state.yml`, replacing it with the serialised in-memory state. -/
theorem C8_transaction_frame (active : Bool) (fs : DbFS) (db : Database)
    (ops : List TxnOp) (s : PkgState) :
    (Database.runBody active fs db ops).1 = fs ∧
    Database.commit active fs ⟨some s⟩ = .ok (⟨none⟩, ⟨some s⟩) := by
  constructor
  · induction ops generalizing fs db with
    | nil => rfl
    | cons op ops ih =>
      cases op with
      | add p =>
        show (match Database.add active fs db p with
          | .error _ => (fs, db, true)
          | .ok (db', fs') => Database.runBody active fs' db' ops).1 = fs
        unfold Database.add
        cases hsf : Database.stateFn active fs db with
        | error e => rfl
        | ok r => exact ih fs _
      | requested =>
        show (match Database.requested active fs db with
          | .error _ => (fs, db, true)
          | .ok (db', fs', _) => Database.runBody active fs' db' ops).1 = fs
        unfold Database.requested
        cases hsf : Database.stateFn active fs db with
        | error e => rfl
        | ok r => exact ih fs _
  · unfold Database.commit Database.stateFn
    cases active <;> rfl

/-- Claim C9 counterexample: the claim fails on the state a transaction
leaves behind when it aborts before commit. First conjunct: inside an
active transaction, an `add` on a fresh database loads and mutates the
in-memory state, producing `state = Some` while never touching the file.
When the body then errors out before `commit`, the lock guard drops (no
transaction is active any more) but `Database` keeps that loaded state —
`Database::state` (pkgdb.rs lines 122-128) only consults the lock to
decide whether to load, and returns any already-loaded state via
`self.state.as_mut().ok_or(NoTransaction)`. So with no transaction
active, `Database::add` and `Database::requested` succeed (and `add`
mutates the stale state) instead of returning `NoTransaction`. -/
theorem C9_counterexample :
    Database.add true ⟨none⟩ ⟨none⟩ ⟨"a", []⟩ =
      .ok (⟨some ⟨[("a", ⟨"a", []⟩)]⟩⟩, ⟨none⟩) ∧
    Database.add false ⟨none⟩ ⟨some ⟨[("a", ⟨"a", []⟩)]⟩⟩ ⟨"b", []⟩ =
      .ok (⟨some ⟨[("b", ⟨"b", []⟩), ("a", ⟨"a", []⟩)]⟩⟩, ⟨none⟩) ∧
    Database.requested false ⟨none⟩ ⟨some ⟨[("a", ⟨"a", []⟩)]⟩⟩ =
      .ok (⟨some ⟨[("a", ⟨"a", []⟩)]⟩⟩, ⟨none⟩, [("a", ⟨"a", []⟩)]) ∧
    Database.add false ⟨none⟩ ⟨some ⟨[("a", ⟨"a", []⟩)]⟩⟩ ⟨"b", []⟩ ≠
      .error .NoTransaction :=
  ⟨rfl, rfl, rfl, fun h => Except.noConfusion h⟩

/-- Claim C9 amended: when no transaction is active and no state is
loaded in memory — the situation after `Database::new` and after every
successful `commit` (which resets the state to `None`) — both
`Database::add` and `Database::requested` fail with `NoTransaction`
without touching anything; with a transaction active they succeed on the
lazily-loaded state (the in-memory state if present, else the state file,
else empty). However, when a previous transaction aborted before commit,
the loaded state lingers, and with no transaction active `add` still
succeeds on that stale state instead of returning `NoTransaction`. -/
theorem C9_no_transaction (fs : DbFS) (db : Database) (p : PackageSpecifier) :
    (db.state = none →
      Database.add false fs db p = .error .NoTransaction ∧
      Database.requested false fs db = .error .NoTransaction) ∧
    Database.add true fs db p =
      .ok (⟨some ((db.state.getD (State.load fs)).insert p.name
        ⟨p.name, p.version⟩)⟩, fs) ∧
    Database.requested true fs db =
      .ok (⟨some (db.state.getD (State.load fs))⟩, fs,
        (db.state.getD (State.load fs)).requested) ∧
    (∀ s, db.state = some s →
      Database.add false fs db p =
        .ok (⟨some (s.insert p.name ⟨p.name, p.version⟩)⟩, fs)) := by
  rcases db with ⟨st⟩
  cases st with
  | none =>
    exact ⟨fun _ => ⟨rfl, rfl⟩, rfl, rfl, fun s hs => Option.noConfusion hs⟩
  | some s =>
    refine ⟨fun h => Option.noConfusion h, rfl, rfl, fun t ht => ?_⟩
    cases ht
    rfl

/-- Witness for C9 at a concrete database, file system and specifier,
exercising the idle case, the active case and the stale-state case. -/
theorem C9_witness :
    Database.add false ⟨none⟩ ⟨none⟩ ⟨"a", []⟩ = .error .NoTransaction ∧
    Database.add true ⟨some ⟨[]⟩⟩ ⟨none⟩ ⟨"a", []⟩ =
      .ok (⟨some ⟨[("a", ⟨"a", []⟩)]⟩⟩, ⟨some ⟨[]⟩⟩) ∧
    Database.add false ⟨none⟩ ⟨some ⟨[]⟩⟩ ⟨"a", []⟩ =
      .ok (⟨some ⟨[("a", ⟨"a", []⟩)]⟩⟩, ⟨none⟩) := by
  have h1 := ((C9_no_transaction ⟨none⟩ ⟨none⟩ ⟨"a", []⟩).1 rfl).1
  have h2 := (C9_no_transaction ⟨some ⟨[]⟩⟩ ⟨none⟩ ⟨"a", []⟩).2.1
  have h3 := (C9_no_transaction ⟨none⟩ ⟨some ⟨[]⟩⟩ ⟨"a", []⟩).2.2.2 ⟨[]⟩ rfl
  exact ⟨h1, by rw [h2]; rfl, by rw [h3]; rfl⟩

/-- Claim C5: after `Solver::resolve` removes the entry keyed by the
synthetic root name from the pubgrub solution, no entry of the returned
package map is the synthetic root: every remaining key differs from the
root name string, and no remaining solution entry is keyed by the root
`Name`. The hypothesis states the provider invariant that every solution
key is either the root or was built by `Name::new` (which asserts its
argument differs from `ROOT_NAME`). -/
theorem C5_root_removed (sol : List (Name × Candidate))
    (hkeys : ∀ e ∈ sol, e.1 = Name.mkRoot ∨
      (e.1.root = false ∧ e.1.name ≠ ROOT_NAME)) :
    (∀ q ∈ Solver.resolvePost sol, q.1 ≠ ROOT_NAME) ∧
    (∀ e ∈ sol.filter (fun e => decide (e.1 ≠ Name.mkRoot)),
      e.1 ≠ Name.mkRoot) := by
  constructor
  · intro q hq
    unfold Solver.resolvePost at hq
    rcases List.mem_map.1 hq with ⟨e, he, rfl⟩
    have hmem := List.mem_of_mem_filter he
    have hne : e.1 ≠ Name.mkRoot := by
      have := List.of_mem_filter he
      simpa using this
    rcases hkeys e hmem with h | h
    · exact absurd h hne
    · exact h.2
  · intro e he
    have := List.of_mem_filter he
    simpa using this

/-- Witness for C5 at a concrete two-entry solution containing the root. -/
theorem C5_witness :
    (Solver.resolvePost
      [(Name.mkRoot, ⟨Version.candidate 0 0 0⟩),
       (Name.new "a", ⟨⟨⟨1, 0, 0, []⟩, 1, 0⟩⟩)]).all
      (fun q => q.1 != ROOT_NAME) = true := by
  have h := (C5_root_removed
    [(Name.mkRoot, ⟨Version.candidate 0 0 0⟩),
     (Name.new "a", ⟨⟨⟨1, 0, 0, []⟩, 1, 0⟩⟩)]
    (by intro e he; fin_cases he
        · exact Or.inl rfl
        · exact Or.inr (by decide))).1
  rw [List.all_eq_true]
  intro q hq
  simpa using h q hq

theorem toVersionSet_fold_pre (comps : List Comparator) (acc vs : VersionSet)
    (h : ∀ comp ∈ comps, comp.pre = [])
    (he : comps.foldlM (fun vs comp => do
        let n ← convert_normal comp
        let p ← convert_prerelease comp
        pure ((vs.with_normal n).with_pre p)) acc = some vs) (w : Version) :
    Range.containsV vs.pre w = Range.containsV acc.pre w := by
  induction comps generalizing acc with
  | nil =>
    simp only [List.foldlM_nil, pure, Option.some_inj] at he
    subst he; rfl
  | cons comp comps ih =>
    rw [List.foldlM_cons] at he
    have hpre : comp.pre = [] := h comp (List.mem_cons_self ..)
    cases hn : convert_normal comp with
    | none => rw [hn] at he; cases he
    | some n =>
      rw [hn] at he
      have hp : convert_prerelease comp = some VersionSet.empty := by
        unfold convert_prerelease; rw [hpre]
      rw [hp] at he
      simp only [Option.bind_some, Option.some_bind, pure] at he
      have hrec := ih _ (fun d hd => h d (List.mem_cons_of_mem _ hd)) he
      rw [hrec]
      show Range.containsV (Range.union acc.pre VersionSet.empty.pre) w = _
      rw [Range.containsV_union]
      simp [VersionSet.empty, Range.containsV, Range.noneR]

/-- Claim C2: a requirement none of whose comparators carries a
pre-release tag translates to a `VersionSet` containing no pre-release
candidate; and the translation of `>=1.2.3-beta` contains 1.2.3-beta,
1.2.3-beta.2 and the release 1.2.3, but not 1.2.4-beta. -/
theorem C2_prerelease_discipline (req : Requirement) (vs : VersionSet)
    (c : Candidate) (hnopre : ∀ comp ∈ req, comp.pre = [])
    (hvs : req.toVersionSet = some vs)
    (hc : c.version.is_prerelease = true) :
    vs.contains c = false ∧
    (Requirement.toVersionSet [⟨.GreaterEq, 1, some 2, some 3, [.str "beta"]⟩]).map
      (fun t =>
        (t.contains ⟨⟨⟨1, 2, 3, [.str "beta"]⟩, 1, 0⟩⟩,
         t.contains ⟨⟨⟨1, 2, 3, [.str "beta", .num 2]⟩, 1, 0⟩⟩,
         t.contains ⟨⟨⟨1, 2, 3, []⟩, 1, 0⟩⟩,
         t.contains ⟨⟨⟨1, 2, 4, [.str "beta"]⟩, 1, 0⟩⟩)) =
      some (true, true, true, false) := by
  constructor
  · have hfold := toVersionSet_fold_pre req VersionSet.default vs hnopre hvs
      c.version
    unfold VersionSet.contains
    rw [hc]
    simpa [VersionSet.default, Range.containsV, Range.noneR] using hfold
  · decide

/-- Witness for C2 at the concrete requirement `>=1.2.0, <2` (two
comparators, neither with a pre-release tag) and the pre-release
candidate 1.5.0-rc.1. -/
theorem C2_witness :
    (∀ comp ∈ ([⟨.GreaterEq, 1, some 2, some 0, []⟩,
        ⟨.Less, 2, none, none, []⟩] : Requirement), comp.pre = []) ∧
    ∃ vs, Requirement.toVersionSet
        [⟨.GreaterEq, 1, some 2, some 0, []⟩, ⟨.Less, 2, none, none, []⟩] =
        some vs ∧
      vs.contains ⟨⟨⟨1, 5, 0, [.str "rc", .num 1]⟩, 1, 0⟩⟩ = false := by
  refine ⟨by decide, ?_⟩
  cases hvs : Requirement.toVersionSet
      [⟨.GreaterEq, 1, some 2, some 0, []⟩, ⟨.Less, 2, none, none, []⟩] with
  | none =>
    exact absurd hvs (by decide)
  | some vs =>
    exact ⟨vs, rfl, (C2_prerelease_discipline _ vs
      ⟨⟨⟨1, 5, 0, [.str "rc", .num 1]⟩, 1, 0⟩⟩ (by decide) hvs rfl).1⟩

/-- Claim C1: for every well-formed comparator, `convert_normal` produces
exactly the half-open interval given by the operator/arity table of the spec
(`spec_normal_interval`), and its two components coincide, so that
interval is the whole content of the returned set. -/
theorem convert_normal_range_eq_spec (c : Comparator)
    (h3 : c.op = .Wildcard → c.pre = []) :
    (convert_normal c).map VersionSet.range = spec_normal_interval c := by
  rcases c with ⟨op, major, minor, patch, pre⟩
  cases op <;> rcases minor with _ | j <;> rcases patch with _ | k <;>
      rcases pre with _ | ⟨p, ps⟩ <;>
    first
      | rfl
      | (exact (List.cons_ne_nil p ps (h3 rfl)).elim)
      | (simp only [convert_normal, spec_normal_interval]
         split_ifs <;> rfl)

theorem convert_normal_pre_eq_range (c : Comparator) (vs : VersionSet)
    (h : convert_normal c = some vs) : vs.pre = vs.range := by
  rcases c with ⟨op, major, minor, patch, pre⟩
  revert h
  cases op <;> rcases minor with _ | j <;> rcases patch with _ | k <;>
      rcases pre with _ | ⟨p, ps⟩ <;>
    intro h <;>
    first
      | exact Option.noConfusion h
      | (cases h; rfl)
      | (cases h; split_ifs <;> rfl)

/-- Claim C1: for every well-formed comparator, `convert_normal` produces
exactly the half-open interval given by the operator/arity table of the spec
(`spec_normal_interval`), and its two components coincide, so that
interval is the whole content of the returned set. -/
theorem C1_convert_normal_table (c : Comparator) (h : c.wf) :
    (convert_normal c).map VersionSet.range = spec_normal_interval c ∧
    (∀ vs, convert_normal c = some vs → vs.pre = vs.range) :=
  ⟨convert_normal_range_eq_spec c (fun ho => (h.2.2 ho).1),
   fun vs hv => convert_normal_pre_eq_range c vs hv⟩

/-- Witness for C1 at the concrete comparator `~1.2.3`. -/
theorem C1_witness :
    Comparator.wf ⟨.Tilde, 1, some 2, some 3, []⟩ ∧
    (convert_normal ⟨.Tilde, 1, some 2, some 3, []⟩).map VersionSet.range =
      spec_normal_interval ⟨.Tilde, 1, some 2, some 3, []⟩ :=
  ⟨by decide,
   (C1_convert_normal_table ⟨.Tilde, 1, some 2, some 3, []⟩ (by decide)).1⟩

theorem ordBne_lt_of_ne {o : Ordering} (h : o ≠ .lt) : (o != Ordering.lt) = true := by
  cases o <;> first | rfl | exact absurd rfl h

theorem ordNe_lt_of_bne {o : Ordering} (h : (o != Ordering.lt) = true) : o ≠ .lt := by
  cases o <;> first | exact absurd h (by decide) | exact fun e => Ordering.noConfusion e

theorem candLe_trans (a b c : Candidate) (h1 : (Candidate.cmp a b != .lt) = true)
    (h2 : (Candidate.cmp b c != .lt) = true) :
    (Candidate.cmp a c != .lt) = true :=
  ordBne_lt_of_ne
    (TransCmp.ge_trans (ordNe_lt_of_bne h1) (ordNe_lt_of_bne h2))

theorem candLe_total (a b : Candidate) :
    ((Candidate.cmp a b != .lt) || (Candidate.cmp b a != .lt)) = true := by
  rcases h : Candidate.cmp a b with _ | _ | _
  · have hg : Candidate.cmp b a = .gt := OrientedCmp.cmp_eq_gt.2 h
    rw [hg]
    rfl
  · rfl
  · rfl

theorem candLe_imp_rel (a b : Candidate)
    (h : (Candidate.cmp a b != .lt) = true) :
    SemVer.cmp a.version.version b.version.version = .gt ∨
      (SemVer.cmp a.version.version b.version.version = .eq ∧
        a.version.source_id ≤ b.version.source_id) := by
  replace h : Candidate.cmp a b ≠ .lt := ordNe_lt_of_bne h
  unfold Candidate.cmp Version.cmp at h
  rcases hsv : SemVer.cmp a.version.version b.version.version with _ | _ | _
  · rw [hsv] at h
    exact absurd rfl h
  · rw [hsv] at h
    have hswap : (pairCmp a.version.srcKey b.version.srcKey).swap ≠ .lt := h
    have hp : pairCmp a.version.srcKey b.version.srcKey ≠ .gt := by
      intro hgt; rw [hgt] at hswap; exact hswap rfl
    have hcmp : compare a.version.source_id b.version.source_id ≠ .gt := by
      intro hg
      apply hp
      show (compare a.version.source_id b.version.source_id).then _ = .gt
      rw [hg]; rfl
    refine Or.inr ⟨rfl, Nat.not_lt.1 (fun hlt => hcmp ?_)⟩
    exact Nat.compare_eq_gt.2 hlt
  · exact Or.inl rfl

/-- Claim C4: at equal SemVer versions, the candidate with the smaller
`(source_id, source_discriminator)` pair (the earlier-declared repository)
compares strictly greater; consequently `Repository::candidates` returns a
permutation of the accumulated candidates ordered newest version first,
with ties at equal versions carrying non-decreasing source ids (earlier
repositories first). -/
theorem C4_candidate_order_sorting :
    (∀ c1 c2 : Candidate, c1.version.version = c2.version.version →
      pairCmp c1.version.srcKey c2.version.srcKey = .lt →
      Candidate.cmp c1 c2 = .gt) ∧
    (∀ repos : List (List SemVer),
      (Repository.candidates repos).Perm (Repository.rawCandidates repos) ∧
      (Repository.candidates repos).Pairwise (fun a b =>
        SemVer.cmp a.version.version b.version.version = .gt ∨
        (SemVer.cmp a.version.version b.version.version = .eq ∧
          a.version.source_id ≤ b.version.source_id))) := by
  constructor
  · intro c1 c2 hv hp
    unfold Candidate.cmp Version.cmp
    have hrefl : SemVer.cmp c2.version.version c2.version.version = .eq :=
      OrientedCmp.cmp_refl
    rw [hv, hrefl]
    show (pairCmp c1.version.srcKey c2.version.srcKey).swap = .gt
    rw [hp]; rfl
  · intro repos
    refine ⟨List.mergeSort_perm _ _, ?_⟩
    have hs := List.sorted_mergeSort
      (fun a b c h1 h2 => candLe_trans a b c h1 h2)
      (fun a b => candLe_total a b)
      (Repository.rawCandidates repos)
    exact hs.imp (fun {a b} h => candLe_imp_rel a b h)

/-- Witness for C4: two candidates with equal version 1.0.0 from sources 1
and 2, and a concrete two-repository snapshot. -/
theorem C4_witness :
    Candidate.cmp ⟨⟨⟨1, 0, 0, []⟩, 1, 0⟩⟩ ⟨⟨⟨1, 0, 0, []⟩, 2, 0⟩⟩ = .gt ∧
    (Repository.candidates
        [[⟨1, 0, 0, []⟩], [⟨1, 1, 0, []⟩, ⟨1, 0, 0, []⟩]]).Perm
      (Repository.rawCandidates
        [[⟨1, 0, 0, []⟩], [⟨1, 1, 0, []⟩, ⟨1, 0, 0, []⟩]]) :=
  ⟨C4_candidate_order_sorting.1 ⟨⟨⟨1, 0, 0, []⟩, 1, 0⟩⟩ ⟨⟨⟨1, 0, 0, []⟩, 2, 0⟩⟩
      rfl (by decide),
   (C4_candidate_order_sorting.2
      [[⟨1, 0, 0, []⟩], [⟨1, 1, 0, []⟩, ⟨1, 0, 0, []⟩]]).1⟩
